import Mathlib

/-
Verification development for the consensus / decomposition engine of the
repository:

  Backend/packages/agent-company/src/quality_agent.py       (QualityAgent)
  Backend/packages/maker-orchestration/src/maker_orchestrator.py
                                                            (MAKEROrchestrator)

Modelling conventions:
  * Python floats are modelled as rationals (the arithmetic the code performs
    on them - division of small counts, adding 0.1, min with 1.0, comparison
    with 0.7 / 0.66 - is exact at every value the claims mention);
  * Python ints are modelled as Nat / Int;
  * the dict-shaped JSON results that get hashed and voted on are modelled by
    the inductive JValue below (numbers restricted to integers, which covers
    every fixture in the repository);
  * hashlib.sha256 is implemented in full (FIPS 180-4) over lists of byte
    values, machine words being Nat reduced mod 2^32.
-/

/-- JSON-like values: the shape of the dict results hashed and voted on. -/
inductive JValue where
  | null : JValue
  | bool : Bool → JValue
  | num : Int → JValue
  | str : String → JValue
  | arr : List JValue → JValue
  | obj : List (String × JValue) → JValue

/-- Key ordering used by json.dumps(..., sort_keys=True): Python sorts the
keys of every object by code-point order, which is the order of Lean's
String linear order. -/
def keyLE (p q : String × JValue) : Prop := p.1 ≤ q.1

instance : DecidableRel keyLE := fun p q => inferInstanceAs (Decidable (p.1 ≤ q.1))

/-- Sort an object's entries by key (stable, as Python's sorted is). -/
def sortByKey (l : List (String × JValue)) : List (String × JValue) :=
  List.insertionSort keyLE l

mutual

/-- Recursively sort every object's keys.  json.dumps(v, sort_keys=True)
sorts each object's items while printing; this is the same as first
canonicalizing with canon and then printing plainly (see dumps). -/
def canon : JValue → JValue
  | .null => .null
  | .bool b => .bool b
  | .num n => .num n
  | .str s => .str s
  | .arr xs => .arr (canonList xs)
  | .obj kvs => .obj (sortByKey (canonEntries kvs))

def canonList : List JValue → List JValue
  | [] => []
  | x :: xs => canon x :: canonList xs

def canonEntries : List (String × JValue) → List (String × JValue)
  | [] => []
  | (k, v) :: kvs => (k, canon v) :: canonEntries kvs

end

/-- Structural equality under canonicalization: same keys and values,
independent of key insertion order at every level. -/
def structEq (a b : JValue) : Prop := canon a = canon b

/-- Lowercase hex digit. -/
def hexDigit (n : Nat) : Char :=
  if n < 10 then Char.ofNat (48 + n) else Char.ofNat (87 + n)

/-- Fixed-width lowercase hex rendering of a natural number. -/
def toHex : Nat → Nat → String
  | 0, _ => ""
  | w + 1, n => toHex w (n / 16) ++ String.singleton (hexDigit (n % 16))

/-- Escaping of one character inside a JSON string, as json.dumps does with
its default ensure_ascii=True (CPython's py_encode_basestring_ascii). -/
def escapeChar (c : Char) : String :=
  if c = '\\' then "\\\\"
  else if c = '"' then "\\\""
  else if c = '\n' then "\\n"
  else if c = '\r' then "\\r"
  else if c = '\t' then "\\t"
  else if c.toNat = 8 then "\\b"
  else if c.toNat = 12 then "\\f"
  else if c.toNat < 32 ∨ 127 ≤ c.toNat then
    if c.toNat < 65536 then "\\u" ++ toHex 4 c.toNat
    else
      let v := c.toNat - 65536
      "\\u" ++ toHex 4 (55296 + v / 1024) ++ "\\u" ++ toHex 4 (56320 + v % 1024)
  else String.singleton c

/-- A JSON string literal with quotes and escapes. -/
def encodeString (s : String) : String :=
  "\"" ++ String.join (s.data.map escapeChar) ++ "\""

mutual

/-- Plain JSON printing with the separators json.dumps uses by default
(", " between items, ": " between a key and its value). -/
def serialize : JValue → String
  | .null => "null"
  | .bool true => "true"
  | .bool false => "false"
  | .num n => toString n
  | .str s => encodeString s
  | .arr xs => "[" ++ serializeItems xs ++ "]"
  | .obj kvs => "\x7b" ++ serializeEntries kvs ++ "\x7d"

def serializeItems : List JValue → String
  | [] => ""
  | [x] => serialize x
  | x :: y :: xs => serialize x ++ ", " ++ serializeItems (y :: xs)

def serializeEntries : List (String × JValue) → String
  | [] => ""
  | [(k, v)] => encodeString k ++ ": " ++ serialize v
  | (k, v) :: e :: kvs =>
      encodeString k ++ ": " ++ serialize v ++ ", " ++ serializeEntries (e :: kvs)

end

/-- Python json.dumps(result, sort_keys=True): sorting every object's keys
during the dump equals recursively sorting first, then printing plainly. -/
def dumps (v : JValue) : String := serialize (canon v)

/-- UTF-8 bytes of the serialized string.  json.dumps with its default
ensure_ascii escaping emits pure ASCII, where UTF-8 bytes coincide with
code points. -/
def strBytes (s : String) : List Nat := s.data.map Char.toNat

/-- 32-bit truncation. -/
def w32 (x : Nat) : Nat := x % 4294967296

/-- 32-bit right rotation (argument below 2^32). -/
def rotr32 (n x : Nat) : Nat := w32 ((x >>> n) ||| (x <<< (32 - n)))

def shaCh (x y z : Nat) : Nat := (x &&& y) ^^^ ((x ^^^ 4294967295) &&& z)

def shaMaj (x y z : Nat) : Nat := (x &&& y) ^^^ (x &&& z) ^^^ (y &&& z)

def shaS0 (x : Nat) : Nat := rotr32 2 x ^^^ rotr32 13 x ^^^ rotr32 22 x

def shaS1 (x : Nat) : Nat := rotr32 6 x ^^^ rotr32 11 x ^^^ rotr32 25 x

def shaG0 (x : Nat) : Nat := rotr32 7 x ^^^ rotr32 18 x ^^^ (x >>> 3)

def shaG1 (x : Nat) : Nat := rotr32 17 x ^^^ rotr32 19 x ^^^ (x >>> 10)

/-- SHA-256 round constants (FIPS 180-4). -/
def shaK : List Nat :=
  [1116352408, 1899447441, 3049323471, 3921009573,
   961987163, 1508970993, 2453635748, 2870763221,
   3624381080, 310598401, 607225278, 1426881987,
   1925078388, 2162078206, 2614888103, 3248222580,
   3835390401, 4022224774, 264347078, 604807628,
   770255983, 1249150122, 1555081692, 1996064986,
   2554220882, 2821834349, 2952996808, 3210313671,
   3336571891, 3584528711, 113926993, 338241895,
   666307205, 773529912, 1294757372, 1396182291,
   1695183700, 1986661051, 2177026350, 2456956037,
   2730485921, 2820302411, 3259730800, 3345764771,
   3516065817, 3600352804, 4094571909, 275423344,
   430227734, 506948616, 659060556, 883997877,
   958139571, 1322822218, 1537002063, 1747873779,
   1955562222, 2024104815, 2227730452, 2361852424,
   2428436474, 2756734187, 3204031479, 3329325298]

/-- SHA-256 initial hash state. -/
def shaH0 : List Nat :=
  [1779033703, 3144134277, 1013904242, 2773480762,
   1359893119, 2600822924, 528734635, 1541459225]

/-- Big-endian byte rendering of a value into a fixed number of bytes. -/
def bytesBE : Nat → Nat → List Nat
  | 0, _ => []
  | n + 1, v => bytesBE n (v / 256) ++ [v % 256]

/-- SHA-256 padding: a 0x80 byte, zeros up to 56 mod 64, then the bit
length in 8 big-endian bytes. -/
def padMessage (msg : List Nat) : List Nat :=
  let z := (119 - msg.length % 64) % 64
  msg ++ 128 :: (List.replicate z 0 ++ bytesBE 8 (msg.length * 8))

/-- Split the (padded) message into 64-byte blocks. -/
def splitBlocks (l : List Nat) : List (List Nat) :=
  (List.range ((l.length + 63) / 64)).map (fun i => (l.drop (64 * i)).take 64)

/-- Pack bytes into big-endian 32-bit words. -/
def toWords : List Nat → List Nat
  | b0 :: b1 :: b2 :: b3 :: rest =>
      (((b0 * 256 + b1) * 256 + b2) * 256 + b3) :: toWords rest
  | _ => []

/-- One message-schedule extension step. -/
def scheduleStep (w : List Nat) : List Nat :=
  let n := w.length
  w ++ [w32 (shaG1 (w.getD (n - 2) 0) + w.getD (n - 7) 0 +
             shaG0 (w.getD (n - 15) 0) + w.getD (n - 16) 0)]

/-- Extend the 16 block words to the 64 schedule words. -/
def schedule (w16 : List Nat) : List Nat :=
  (List.range 48).foldl (fun w _ => scheduleStep w) w16

/-- One compression round on the eight-word working state. -/
def compressStep (st : List Nat) (kw : Nat × Nat) : List Nat :=
  match st with
  | [a, b, c, d, e, f, g, h] =>
    let t1 := w32 (h + shaS1 e + shaCh e f g + kw.1 + kw.2)
    let t2 := w32 (shaS0 a + shaMaj a b c)
    [w32 (t1 + t2), a, b, c, w32 (d + t1), e, f, g]
  | other => other

/-- Process one 64-byte block into the running hash state. -/
def processBlock (hs : List Nat) (block : List Nat) : List Nat :=
  let st := (shaK.zip (schedule (toWords block))).foldl compressStep hs
  (hs.zip st).map (fun p => w32 (p.1 + p.2))

/-- The 256-BIT digest of a byte list, as one natural number. -/
def sha256Nat (msg : List Nat) : Nat :=
  ((splitBlocks (padMessage msg)).foldl processBlock shaH0).foldl
    (fun acc h => acc * 4294967296 + w32 h) 0

/-- hashlib's hexdigest: the digest as 64 lowercase hex characters. -/
def hexDigest (msg : List Nat) : String := toHex 64 (sha256Nat msg)

/-- QualityAgent.hash_result: sha256 hexdigest of
json.dumps(result, sort_keys=True).encode(). -/
def hash_result (result : JValue) : String := hexDigest (strBytes (dumps result))

/-
QualityAgent (quality_agent.py).  The agent's verification_threshold
attribute is 0.7; python floats are rationals here.
-/

/-- QualityAgent.verification_threshold (0.7). -/
def verification_threshold : ℚ := 7 / 10

/-- One entry of the verification_results list built by
QualityAgent.verify_with_agent.  The wall-clock timestamp field is not
modelled (never read by any code under verification). -/
structure Verification where
  agent_id : String
  hash : String
  output : JValue
  is_valid : Bool
  confidence : ℚ

/-- The dict returned by QualityAgent.apply_voting. -/
structure VotingResult where
  majority_hash : String
  majority_count : Nat
  total_verifiers : Nat
  consensus_strength : ℚ
  hash_groups : List (String × Nat)
  all_agree : Bool

/-- Append a verification to the group keyed by its hash, or open a new
group at the end: exactly what the hash_groups dict loop of apply_voting
does, with Python dicts preserving insertion order. -/
def addToGroups (groups : List (String × List Verification)) (v : Verification) :
    List (String × List Verification) :=
  match groups with
  | [] => [(v.hash, [v])]
  | (h, g) :: rest =>
      if h = v.hash then (h, g ++ [v]) :: rest else (h, g) :: addToGroups rest v

/-- The hash_groups dict of apply_voting, in insertion order. -/
def groupByHash (vrs : List Verification) : List (String × List Verification) :=
  vrs.foldl addToGroups []

/-- Python max(keys, key=len of group) over the dict's iteration order:
scans left to right, replacing the candidate only on a strictly larger
length, so ties keep the first-encountered key.  none on an empty dict
(Python raises ValueError there). -/
def pickLonger (best cand : String × List Verification) :
    String × List Verification :=
  if best.2.length < cand.2.length then cand else best

def maxByLen (groups : List (String × List Verification)) :
    Option (String × List Verification) :=
  match groups with
  | [] => none
  | g :: rest => some (rest.foldl pickLonger g)

/-- QualityAgent.apply_voting.  The original_result argument is unused by
the Python body, so it is not a parameter here.  Returns none exactly when
Python raises (max() over the empty key set of hash_groups). -/
def apply_voting (verification_results : List Verification) : Option VotingResult :=
  match maxByLen (groupByHash verification_results) with
  | none => none
  | some m =>
      some
        { majority_hash := m.1
          majority_count := m.2.length
          total_verifiers := verification_results.length
          consensus_strength :=
            (m.2.length : ℚ) / (verification_results.length : ℚ)
          hash_groups :=
            (groupByHash verification_results).map (fun hg => (hg.1, hg.2.length))
          all_agree := (groupByHash verification_results).length == 1 }

/-- QualityAgent._calculate_quality_score. -/
def calculate_quality_score (verified_result : VotingResult) : ℚ :=
  let consensus_strength := verified_result.consensus_strength
  let bonus : ℚ := if verified_result.all_agree then 1 / 10 else 0
  min 1 (consensus_strength + bonus)

/-- QualityAgent.verify_with_agent (the asyncio.sleep is latency only). -/
def verify_with_agent (result : JValue) (agent_id : Nat) : Verification :=
  let result_hash := hash_result result
  { agent_id := "verifier-" ++ toString agent_id
    hash := result_hash
    output := result
    is_valid := decide (0 < result_hash.length)
    confidence := if 0 < result_hash.length then 9 / 10 else 1 / 10 }

/-- QualityAgent.multi_agent_verification: verifier ids range over
0..num_verifiers-1 (asyncio.gather keeps the task order). -/
def multi_agent_verification (result : JValue) (num_verifiers : Nat) :
    List Verification :=
  (List.range num_verifiers).map (verify_with_agent result)

/-- The dict returned by QualityAgent.verify. -/
structure VerifyOutput where
  verified : Bool
  quality_score : ℚ
  verification_details : VotingResult
  verification_count : Nat
  confidence : ℚ

/-- QualityAgent.verify with the default 3 verifiers (the
verification_results local is multi_agent_verification result 3, the
quality_score local is calculate_quality_score of the voting result).
none would mean an escaped exception; with 3 verifiers the voting list is
never empty. -/
def verify (result : JValue) : Option VerifyOutput :=
  match apply_voting (multi_agent_verification result 3) with
  | none => none
  | some verified_result =>
      some
        { verified :=
            decide (verification_threshold ≤ calculate_quality_score verified_result)
          quality_score := calculate_quality_score verified_result
          verification_details := verified_result
          verification_count := (multi_agent_verification result 3).length
          confidence := calculate_quality_score verified_result }

/-
MAKEROrchestrator (maker_orchestrator.py).
-/

/-- A step dict of MAKEROrchestrator.decompose. -/
structure MStep where
  id : String
  action : String

/-- A subtask dict of MAKEROrchestrator.decompose. -/
structure MSubtask where
  id : String
  description : String
  steps : List MStep

/-- A component dict of MAKEROrchestrator.decompose. -/
structure MComponent where
  id : String
  description : String
  subtasks : List MSubtask

/-- The dict returned by MAKEROrchestrator.decompose. -/
structure DecomposedTask where
  original_task : String
  decomposition_level : Nat
  max_depth : Nat
  components : List MComponent
  total_steps : Nat
  status : String

/-- MAKEROrchestrator.decompose.  The Python body raises nothing: every
operation in it is total (the inner divisions only run when their divisors
are at least 1), so the embedding is a total function.  decomposition_level
is the target subtask count. -/
def decompose (task : String) (decomposition_level : Nat) (max_depth : Nat) :
    DecomposedTask :=
  let major_components := min (decomposition_level / 10) 10
  let components := (List.range major_components).map (fun i =>
    let subtasks :=
      if 1 < max_depth then
        let sub_count := min (decomposition_level / major_components) 20
        (List.range sub_count).map (fun j =>
          let steps :=
            if 2 < max_depth then
              let step_count :=
                min (decomposition_level / (major_components * sub_count)) 10
              (List.range step_count).map (fun k =>
                { id := "step-" ++ toString i ++ "-" ++ toString j ++ "-" ++
                    toString k
                  action := "Execute step " ++ toString k : MStep })
            else []
          { id := "subtask-" ++ toString i ++ "-" ++ toString j
            description :=
              "Subtask " ++ toString j ++ " of component " ++ toString i
            steps := steps : MSubtask })
      else []
    { id := "component-" ++ toString i
      description :=
        "Component " ++ toString i ++ ": " ++ task ++ " part " ++ toString (i + 1)
      subtasks := subtasks : MComponent })
  let total_steps := (components.map (fun comp =>
    match comp.subtasks with
    | [] => 1
    | s0 :: _ => comp.subtasks.length * s0.steps.length)).sum
  { original_task := task
    decomposition_level := decomposition_level
    max_depth := max_depth
    components := components
    total_steps := total_steps
    status := "decomposed" }

/-- A vote dict built by MAKEROrchestrator._generate_vote. -/
structure Vote where
  voter_id : String
  result_hash : String
  vote : String
  reputation : Nat
  weight : ℚ

/-- Reputation lookup: self.reputation_scores.get(key, 50). -/
def repLookup (reputation_scores : List (String × Nat)) (key : String) : Nat :=
  (reputation_scores.lookup key).getD 50

/-- MAKEROrchestrator._generate_vote.  resultsRepr stands for str(results),
the Python repr of the results list, an opaque string here (only its hash
prefix is stored, and nothing under verification reads it). -/
def generate_vote (reputation_scores : List (String × Nat)) (resultsRepr : String)
    (voter_id : Nat) : Vote :=
  let result_hash := hexDigest (strBytes resultsRepr)
  let reputation := repLookup reputation_scores ("voter-" ++ toString voter_id)
  { voter_id := "voter-" ++ toString voter_id
    result_hash := result_hash.take 16
    vote := "approve"
    reputation := reputation
    weight := (reputation : ℚ) / 100 }

/-- The dict returned by MAKEROrchestrator._calculate_consensus.  In the
empty-votes early return Python emits only the strength and result keys;
the two count fields (absent there) are modelled as 0, and no claim reads
them on that branch. -/
structure Consensus where
  strength : ℚ
  result : String
  approve_votes : Nat
  total_votes : Nat

/-- Sum of all vote weights. -/
def totalWeight (votes : List Vote) : ℚ := (votes.map (fun v => v.weight)).sum

/-- Sum of the approve votes' weights. -/
def approveWeight (votes : List Vote) : ℚ :=
  ((votes.filter (fun v => v.vote == "approve")).map (fun v => v.weight)).sum

/-- MAKEROrchestrator._calculate_consensus. -/
def calculate_consensus (votes : List Vote) : Consensus :=
  match votes with
  | [] => { strength := 0, result := "no_consensus", approve_votes := 0, total_votes := 0 }
  | _ =>
      let total_weight := totalWeight votes
      let approve_weight := approveWeight votes
      let consensus_strength : ℚ :=
        if 0 < total_weight then approve_weight / total_weight else 0
      { strength := consensus_strength
        result := if 66 / 100 ≤ consensus_strength then "approved" else "rejected"
        approve_votes := (votes.filter (fun v => v.vote == "approve")).length
        total_votes := votes.length }

/-- The dict returned by MAKEROrchestrator.vote. -/
structure VoteOutcome where
  total_votes : Nat
  consensus : Consensus
  consensus_strength : ℚ
  voting_method : String
  votes : List Vote

/-- MAKEROrchestrator.vote.  The Hydra recording branch only logs (its
try body is a logger call), so it has no effect on the returned value. -/
def makerVote (reputation_scores : List (String × Nat)) (resultsRepr : String)
    (num_voters : Nat) (use_hydra : Bool) : VoteOutcome :=
  let votes := (List.range num_voters).map (generate_vote reputation_scores resultsRepr)
  let consensus := calculate_consensus votes
  { total_votes := votes.length
    consensus := consensus
    consensus_strength := consensus.strength
    voting_method := if use_hydra then "hydra" else "local"
    votes := votes }

/-
Claim theorems.
-/

/-- C1 counterexample: the claim says QualityAgent.apply_voting on an empty
verification_results list returns consensus_strength 0.0 and "no_consensus"
without raising; in fact hash_groups is empty there and max() over its key
set raises ValueError, modelled as none. -/
theorem c1_counterexample : apply_voting [] = none := rfl

/-- C1 (amended): for a round with zero judgments,
MAKEROrchestrator._calculate_consensus returns strength 0.0 and
"no_consensus" without raising and without dividing by zero, but
QualityAgent.apply_voting on an empty verification_results list raises
(ValueError from max() over an empty sequence) instead of returning. -/
theorem c1_empty_round :
    calculate_consensus [] =
      { strength := 0, result := "no_consensus", approve_votes := 0, total_votes := 0 } ∧
    apply_voting [] = none :=
  ⟨rfl, rfl⟩

/-- C3 counterexample: the claim says decompose yields at least one
component whenever target_subtask_count ≥ 1; at target 5 (and max_depth 3)
the code computes min(5 // 10, 10) = 0 components, an empty tree. -/
theorem c3_counterexample :
    1 ≤ 5 ∧ 1 ≤ 3 ∧ (decompose "task" 5 3).components.length = 0 :=
  ⟨by norm_num, by norm_num, rfl⟩

/-- C3 (amended): the component count is min(target // 10, 10) exactly, so
it is at least 1 only when target_subtask_count ≥ 10; for
1 ≤ target_subtask_count ≤ 9 the tree is empty. -/
theorem c3_component_count (task : String) (level depth : Nat)
    (h1 : 1 ≤ level) (_h2 : 1 ≤ depth) :
    (decompose task level depth).components.length = min (level / 10) 10 ∧
    (10 ≤ level → 1 ≤ (decompose task level depth).components.length) ∧
    (level ≤ 9 → (decompose task level depth).components.length = 0) := by
  have hlen : (decompose task level depth).components.length = min (level / 10) 10 := by
    simp [decompose]
  refine ⟨hlen, ?_, ?_⟩
  · intro h10
    rw [hlen]
    have : 1 ≤ level / 10 := (Nat.one_le_div_iff (by norm_num)).mpr h10
    exact le_min this (by norm_num)
  · intro h9
    rw [hlen]
    have : level / 10 = 0 := Nat.div_eq_of_lt (by omega)
    simp [this]

theorem c3_component_count_witness :
    1 ≤ 10 ∧ 1 ≤ 1 ∧
    ((decompose "task" 10 1).components.length = min (10 / 10) 10 ∧
     (10 ≤ 10 → 1 ≤ (decompose "task" 10 1).components.length) ∧
     (10 ≤ 9 → (decompose "task" 10 1).components.length = 0)) :=
  ⟨by norm_num, by norm_num, c3_component_count "task" 10 1 (by norm_num) (by norm_num)⟩

/-- C7 counterexample: the claim says an invalid configuration
(target_subtask_count < 1 or max_depth < 1) makes decompose fail fast with
a DecompositionError; in fact the code validates nothing and returns a
normal "decomposed" structure (here with an empty components list). -/
theorem c7_counterexample :
    (decompose "task" 0 0).status = "decomposed" ∧
    (decompose "task" 0 0).components = [] :=
  ⟨rfl, rfl⟩

/-- C7 (amended): decompose performs no configuration validation and can
raise nothing (no DecompositionError exists anywhere in the code): for any
inputs it returns a "decomposed" structure; target_subtask_count = 0 gives
an empty components list, and max_depth = 0 gives components with no
subtasks. -/
theorem c7_no_validation (task : String) (level depth : Nat) :
    (decompose task level depth).status = "decomposed" ∧
    (decompose task 0 depth).components = [] ∧
    (decompose task level 0).components.all (fun c => c.subtasks.isEmpty) = true := by
  refine ⟨rfl, rfl, ?_⟩
  rw [List.all_eq_true]
  intro c hc
  simp only [decompose, List.mem_map, List.mem_range] at hc
  obtain ⟨i, _, rfl⟩ := hc
  simp

/-- C4: quality_score = min(1.0, consensus_strength + bonus) with bonus 0.1
exactly when all_agree; verify's verified flag is the strict-≥ comparison
of quality_score with the 0.7 threshold: true at exactly 0.7 (even without
the unanimity bonus), false strictly below it. -/
theorem c4_quality_threshold :
    (∀ vr : VotingResult,
      calculate_quality_score vr =
        min 1 (vr.consensus_strength + (if vr.all_agree then 1 / 10 else 0))) ∧
    (∀ result out, verify result = some out →
      (out.verified = true ↔ 7 / 10 ≤ out.quality_score)) ∧
    (∀ vr : VotingResult, vr.consensus_strength = 7 / 10 → vr.all_agree = false →
      calculate_quality_score vr = 7 / 10 ∧
      decide (verification_threshold ≤ calculate_quality_score vr) = true) ∧
    (∀ vr : VotingResult, calculate_quality_score vr < 7 / 10 →
      decide (verification_threshold ≤ calculate_quality_score vr) = false) := by
  have hthr : verification_threshold = 7 / 10 := rfl
  refine ⟨fun vr => rfl, ?_, ?_, ?_⟩
  · intro result out hout
    unfold verify at hout
    cases happ : apply_voting (multi_agent_verification result 3) with
    | none => rw [happ] at hout; cases hout
    | some vr =>
        rw [happ] at hout
        injection hout with h
        subst h
        simp [hthr, decide_eq_true_iff]
  · intro vr hcs hag
    have hq : calculate_quality_score vr = 7 / 10 := by
      unfold calculate_quality_score
      rw [hcs, hag]
      norm_num
    refine ⟨hq, ?_⟩
    rw [hq, hthr]
    norm_num
  · intro vr hlt
    rw [hthr]
    simpa [decide_eq_false_iff_not] using not_le_of_lt hlt

theorem c4_quality_threshold_witness :
    calculate_quality_score
        { majority_hash := "h", majority_count := 7, total_verifiers := 10,
          consensus_strength := 7 / 10, hash_groups := [], all_agree := false } = 7 / 10 ∧
    decide (verification_threshold ≤ calculate_quality_score
        { majority_hash := "h", majority_count := 7, total_verifiers := 10,
          consensus_strength := 7 / 10, hash_groups := [], all_agree := false }) = true :=
  c4_quality_threshold.2.2.1
    { majority_hash := "h", majority_count := 7, total_verifiers := 10,
      consensus_strength := 7 / 10, hash_groups := [], all_agree := false } rfl rfl

/-- C6: every generated vote's weight is the voter's reputation divided by
100, and on a non-empty vote list with positive total weight the consensus
strength is the approve weight over the total weight, the result being
"approved" exactly when that ratio is at least 0.66. -/
theorem c6_reputation_weighting :
    (∀ reps s i, (generate_vote reps s i).weight =
        (repLookup reps ("voter-" ++ toString i) : ℚ) / 100) ∧
    (∀ votes : List Vote, votes ≠ [] → 0 < totalWeight votes →
      (calculate_consensus votes).strength = approveWeight votes / totalWeight votes ∧
      ((calculate_consensus votes).result = "approved" ↔
        66 / 100 ≤ approveWeight votes / totalWeight votes)) := by
  refine ⟨fun reps s i => rfl, ?_⟩
  intro votes hne hpos
  have hstrength :
      (calculate_consensus votes).strength = approveWeight votes / totalWeight votes := by
    cases votes with
    | nil => exact absurd rfl hne
    | cons v t => simp [calculate_consensus, if_pos hpos]
  have hresult : (calculate_consensus votes).result =
      (if 66 / 100 ≤ approveWeight votes / totalWeight votes
        then "approved" else "rejected") := by
    cases votes with
    | nil => exact absurd rfl hne
    | cons v t => simp [calculate_consensus, if_pos hpos]
  refine ⟨hstrength, ?_⟩
  rw [hresult]
  by_cases hle : (66 : ℚ) / 100 ≤ approveWeight votes / totalWeight votes
  · simp [if_pos hle, hle]
  · rw [if_neg hle]
    constructor
    · intro habs
      exact absurd habs (by decide)
    · intro habs
      exact absurd habs hle

def c6Votes : List Vote :=
  [{ voter_id := "voter-0", result_hash := "", vote := "approve",
     reputation := 100, weight := 1 },
   { voter_id := "voter-1", result_hash := "", vote := "reject",
     reputation := 0, weight := 0 }]

theorem c6_reputation_weighting_witness :
    c6Votes ≠ [] ∧ 0 < totalWeight c6Votes ∧
    ((calculate_consensus c6Votes).strength = approveWeight c6Votes / totalWeight c6Votes ∧
     ((calculate_consensus c6Votes).result = "approved" ↔
       66 / 100 ≤ approveWeight c6Votes / totalWeight c6Votes)) ∧
    (calculate_consensus c6Votes).strength = 1 := by
  have h1 : c6Votes ≠ [] := List.cons_ne_nil _ _
  have h2 : 0 < totalWeight c6Votes := by norm_num [totalWeight, c6Votes]
  have h3 := c6_reputation_weighting.2 c6Votes h1 h2
  refine ⟨h1, h2, h3, ?_⟩
  rw [h3.1]
  have hne2 : ¬ (("reject" : String) = "approve") := by decide
  have ha : approveWeight c6Votes = 1 := by
    norm_num [approveWeight, c6Votes, List.filter_cons, List.filter_nil, if_neg hne2]
  have ht : totalWeight c6Votes = 1 := by
    norm_num [totalWeight, c6Votes]
  rw [ha, ht]
  norm_num

/-- A member of a list of nonnegative rationals is at most the list sum. -/
theorem le_sum_of_mem_of_nonneg (l : List ℚ) (x : ℚ) (hx : x ∈ l)
    (h : ∀ y ∈ l, 0 ≤ y) : x ≤ l.sum := by
  induction l with
  | nil => cases hx
  | cons a t ih =>
      rcases List.mem_cons.mp hx with rfl | hx2
      · have ht : 0 ≤ t.sum :=
          List.sum_nonneg (fun y hy => h y (List.mem_cons_of_mem _ hy))
        rw [List.sum_cons]
        exact le_add_of_nonneg_right ht
      · have hxt := ih hx2 (fun y hy => h y (List.mem_cons_of_mem _ hy))
        have ha := h a (List.mem_cons_self a t)
        calc x ≤ t.sum := hxt
          _ ≤ a + t.sum := le_add_of_nonneg_left ha
          _ = (a :: t).sum := (List.sum_cons).symm

/-- C10: every vote _generate_vote emits is "approve", so whenever some
voter id below num_voters has positive reputation (the default for an
unseen voter being 50), MAKEROrchestrator.vote reaches consensus strength
1.0 and result "approved": the task-level MAKER vote can never reject. -/
theorem c10_vote_always_approves (reps : List (String × Nat)) (s : String)
    (n : Nat) (u : Bool) (hn : 1 ≤ n)
    (hrep : ∃ i, i < n ∧ 0 < repLookup reps ("voter-" ++ toString i)) :
    (∀ v ∈ (makerVote reps s n u).votes, v.vote = "approve") ∧
    (makerVote reps s n u).consensus_strength = 1 ∧
    (makerVote reps s n u).consensus.result = "approved" := by
  obtain ⟨i, hi, hpos⟩ := hrep
  set votes := (List.range n).map (generate_vote reps s) with hvotes
  have hall : ∀ v ∈ votes, v.vote = "approve" := by
    intro v hv
    rw [hvotes] at hv
    obtain ⟨j, _, rfl⟩ := List.mem_map.mp hv
    rfl
  have hfil : votes.filter (fun v => v.vote == "approve") = votes := by
    apply List.filter_eq_self.mpr
    intro v hv
    exact beq_iff_eq.mpr (hall v hv)
  have happrove : approveWeight votes = totalWeight votes := by
    unfold approveWeight totalWeight
    rw [hfil]
  have hmem : generate_vote reps s i ∈ votes := by
    rw [hvotes]
    exact List.mem_map.mpr ⟨i, List.mem_range.mpr hi, rfl⟩
  have hwnonneg : ∀ y ∈ votes.map (fun v => v.weight), 0 ≤ y := by
    intro y hy
    obtain ⟨v, hv, rfl⟩ := List.mem_map.mp hy
    rw [hvotes] at hv
    obtain ⟨j, _, rfl⟩ := List.mem_map.mp hv
    unfold generate_vote
    positivity
  have hwpos : 0 < (generate_vote reps s i).weight := by
    unfold generate_vote
    simp only []
    positivity
  have htpos : 0 < totalWeight votes := by
    have := le_sum_of_mem_of_nonneg (votes.map (fun v => v.weight))
      (generate_vote reps s i).weight (List.mem_map.mpr ⟨_, hmem, rfl⟩) hwnonneg
    unfold totalWeight
    exact lt_of_lt_of_le hwpos this
  have hne : votes ≠ [] := by
    rw [hvotes]
    intro habs
    have : (List.range n).length = 0 := by
      simpa using congrArg List.length habs
    simp at this
    omega
  have hcons := c6_reputation_weighting.2 votes hne htpos
  have hstr : (calculate_consensus votes).strength = 1 := by
    rw [hcons.1, happrove, div_self (ne_of_gt htpos)]
  refine ⟨hall, ?_, ?_⟩
  · show (calculate_consensus votes).strength = 1
    exact hstr
  · show (calculate_consensus votes).result = "approved"
    rw [hcons.2, happrove, div_self (ne_of_gt htpos)]
    norm_num

theorem c10_vote_always_approves_witness :
    1 ≤ 1 ∧ (∃ i, i < 1 ∧ 0 < repLookup [] ("voter-" ++ toString i)) ∧
    ((∀ v ∈ (makerVote [] "results" 1 false).votes, v.vote = "approve") ∧
     (makerVote [] "results" 1 false).consensus_strength = 1 ∧
     (makerVote [] "results" 1 false).consensus.result = "approved") :=
  ⟨le_refl 1, ⟨0, by norm_num, by norm_num [repLookup]⟩,
   c10_vote_always_approves [] "results" 1 false (le_refl 1)
     ⟨0, by norm_num, by norm_num [repLookup]⟩⟩

/-- Shape of the decomposition tree: the exact per-level widths decompose
computes, for every input. -/
theorem decompose_shape (task : String) (level depth : Nat) :
    (decompose task level depth).components.length = min (level / 10) 10 ∧
    ∀ c ∈ (decompose task level depth).components,
      c.subtasks.length =
        (if 1 < depth then min (level / min (level / 10) 10) 20 else 0) ∧
      ∀ s ∈ c.subtasks,
        s.steps.length =
          (if 2 < depth then
            min (level / (min (level / 10) 10 *
              min (level / min (level / 10) 10) 20)) 10
          else 0) := by
  refine ⟨by simp [decompose], ?_⟩
  intro c hc
  simp only [decompose, List.mem_map, List.mem_range] at hc
  obtain ⟨i, _, rfl⟩ := hc
  constructor
  · split
    · simp
    · simp
  · intro s hs
    simp only at hs
    split at hs
    · simp only [List.mem_map, List.mem_range] at hs
      obtain ⟨j, _, rfl⟩ := hs
      split
      · simp
      · simp
    · cases hs

/-- C5: the decomposition is width-bounded at every level for every input
(at most 10 components, 20 subtasks per component, 10 steps per subtask),
and at target 1000 with max_depth 3 it is exactly 10 components of exactly
20 subtasks of exactly 5 steps each. -/
theorem c5_width_bounds :
    (∀ task level depth,
      (decompose task level depth).components.length ≤ 10 ∧
      ((decompose task level depth).components.all (fun c =>
        decide (c.subtasks.length ≤ 20) &&
        c.subtasks.all (fun s => decide (s.steps.length ≤ 10))) = true)) ∧
    ((decompose "task" 1000 3).components.length = 10 ∧
      ((decompose "task" 1000 3).components.all (fun c =>
        decide (c.subtasks.length = 20) &&
        c.subtasks.all (fun s => decide (s.steps.length = 5))) = true)) := by
  constructor
  · intro task level depth
    obtain ⟨hlen, hcomp⟩ := decompose_shape task level depth
    constructor
    · rw [hlen]
      exact min_le_right _ _
    · rw [List.all_eq_true]
      intro c hc
      obtain ⟨hsub, hsteps⟩ := hcomp c hc
      rw [Bool.and_eq_true, decide_eq_true_iff]
      constructor
      · rw [hsub]
        split
        · exact min_le_right _ _
        · exact Nat.zero_le _
      · rw [List.all_eq_true]
        intro s hs
        rw [decide_eq_true_iff, hsteps s hs]
        split
        · exact min_le_right _ _
        · exact Nat.zero_le _
  · obtain ⟨hlen, hcomp⟩ := decompose_shape "task" 1000 3
    constructor
    · rw [hlen]
      decide
    · rw [List.all_eq_true]
      intro c hc
      obtain ⟨hsub, hsteps⟩ := hcomp c hc
      rw [Bool.and_eq_true, decide_eq_true_iff]
      constructor
      · rw [hsub]
        decide
      · rw [List.all_eq_true]
        intro s hs
        rw [decide_eq_true_iff, hsteps s hs]
        decide

/-- All three default verifiers hash the same input, so the voting groups
collapse to a single group. -/
theorem groupByHash_default_three (result : JValue) :
    groupByHash (multi_agent_verification result 3) =
      [(hash_result result, multi_agent_verification result 3)] := by
  have hmav : multi_agent_verification result 3 =
      [verify_with_agent result 0, verify_with_agent result 1,
       verify_with_agent result 2] := rfl
  rw [hmav]
  simp [groupByHash, addToGroups, verify_with_agent]

/-- apply_voting on the default three-verifier round: one group, perfect
consensus. -/
theorem apply_voting_default_three (result : JValue) :
    apply_voting (multi_agent_verification result 3) = some
      { majority_hash := hash_result result
        majority_count := 3
        total_verifiers := 3
        consensus_strength := 1
        hash_groups := [(hash_result result, 3)]
        all_agree := true } := by
  have hmav : multi_agent_verification result 3 =
      [verify_with_agent result 0, verify_with_agent result 1,
       verify_with_agent result 2] := rfl
  unfold apply_voting
  rw [groupByHash_default_three result]
  unfold maxByLen
  simp only [List.foldl_nil, Option.some.injEq, VotingResult.mk.injEq]
  rw [hmav]
  norm_num

/-- C9: for every result, QualityAgent.verify with the default judge
returns verified = true, quality_score 1.0, verification_count 3 and a
unanimous voting detail: the three default verifiers hash the identical
input, so the per-result quality gate never rejects anything. -/
theorem c9_default_verify_accepts (result : JValue) :
    ∃ out, verify result = some out ∧
      out.verified = true ∧ out.quality_score = 1 ∧
      out.verification_count = 3 ∧ out.confidence = 1 ∧
      out.verification_details.all_agree = true ∧
      out.verification_details.consensus_strength = 1 := by
  have happ := apply_voting_default_three result
  have hq : calculate_quality_score
      { majority_hash := hash_result result
        majority_count := 3
        total_verifiers := 3
        consensus_strength := 1
        hash_groups := [(hash_result result, 3)]
        all_agree := true } = 1 := by
    unfold calculate_quality_score
    norm_num
  unfold verify
  rw [happ]
  refine ⟨_, rfl, ?_, ?_, ?_, ?_, ?_, ?_⟩
  · show decide (verification_threshold ≤ calculate_quality_score _) = true
    rw [hq, decide_eq_true_iff]
    norm_num [verification_threshold]
  · exact hq
  · rfl
  · exact hq
  · rfl
  · rfl

/-- The running best of the Python max() scan never shrinks. -/
theorem foldl_pickLonger_ge (rest : List (String × List Verification))
    (g : String × List Verification) :
    g.2.length ≤ (rest.foldl pickLonger g).2.length := by
  induction rest generalizing g with
  | nil => exact le_refl _
  | cons c t ih =>
      rw [List.foldl_cons]
      by_cases h : g.2.length < c.2.length
      · rw [show pickLonger g c = c from if_pos h]
        exact le_trans (le_of_lt h) (ih c)
      · rw [show pickLonger g c = g from if_neg h]
        exact ih g

/-- Python max() over a list: the result splits the list into a strictly
smaller prefix and a no-larger suffix, i.e. it is the first element
achieving the maximum. -/
theorem foldl_pickLonger_spec (rest : List (String × List Verification))
    (g : String × List Verification) :
    ∃ l1 l2, g :: rest = l1 ++ (rest.foldl pickLonger g) :: l2 ∧
      (∀ p ∈ l1, p.2.length < (rest.foldl pickLonger g).2.length) ∧
      (∀ p ∈ l2, p.2.length ≤ (rest.foldl pickLonger g).2.length) := by
  induction rest generalizing g with
  | nil =>
      refine ⟨[], [], rfl, ?_, ?_⟩
      · intro p hp; cases hp
      · intro p hp; cases hp
  | cons c t ih =>
      rw [List.foldl_cons]
      by_cases h : g.2.length < c.2.length
      · rw [show pickLonger g c = c from if_pos h]
        obtain ⟨l1, l2, heq, hlt, hle⟩ := ih c
        refine ⟨g :: l1, l2, ?_, ?_, hle⟩
        · rw [List.cons_append, ← heq]
        · intro p hp
          rcases List.mem_cons.mp hp with rfl | hp2
          · exact lt_of_lt_of_le h (foldl_pickLonger_ge t c)
          · exact hlt p hp2
      · rw [show pickLonger g c = g from if_neg h]
        obtain ⟨l1, l2, heq, hlt, hle⟩ := ih g
        cases l1 with
        | nil =>
            rw [List.nil_append] at heq
            injection heq with hg hl2
            refine ⟨[], c :: t, ?_, ?_, ?_⟩
            · rw [List.nil_append, ← hg]
            · intro p hp; cases hp
            · intro p hp
              rcases List.mem_cons.mp hp with rfl | hp2
              · rw [← hg]
                exact le_of_not_lt h
              · rw [← hg]
                have : p ∈ l2 := hl2 ▸ hp2
                rw [hg]
                exact hle p this
        | cons a l1' =>
            rw [List.cons_append] at heq
            injection heq with hg ht
            refine ⟨g :: c :: l1', l2, ?_, ?_, hle⟩
            · rw [List.cons_append, List.cons_append, ← ht]
            · intro p hp
              have hga : g.2.length < (t.foldl pickLonger g).2.length := by
                have ha := hlt a (List.mem_cons_self a l1')
                rw [← hg] at ha
                exact ha
              rcases List.mem_cons.mp hp with rfl | hp2
              · exact hga
              · rcases List.mem_cons.mp hp2 with rfl | hp3
                · exact lt_of_le_of_lt (le_of_not_lt h) hga
                · exact hlt p (List.mem_cons_of_mem a hp3)

theorem addToGroups_ne_nil (gs : List (String × List Verification))
    (v : Verification) : addToGroups gs v ≠ [] := by
  cases gs with
  | nil => simp [addToGroups]
  | cons p rest =>
      obtain ⟨h, g⟩ := p
      simp only [addToGroups]
      split <;> simp

theorem foldl_addToGroups_ne_nil (l : List Verification)
    (gs : List (String × List Verification)) (hgs : gs ≠ []) :
    l.foldl addToGroups gs ≠ [] := by
  induction l generalizing gs with
  | nil => exact hgs
  | cons v t ih =>
      rw [List.foldl_cons]
      exact ih _ (addToGroups_ne_nil gs v)

theorem groupByHash_ne_nil (v : Verification) (t : List Verification) :
    groupByHash (v :: t) ≠ [] := by
  unfold groupByHash
  rw [List.foldl_cons]
  exact foldl_addToGroups_ne_nil t _ (addToGroups_ne_nil [] v)

/-- Folding verifications that all carry hash h into the single group for
h just extends that group. -/
theorem foldl_addToGroups_same (h : String) (l : List Verification) :
    ∀ g0, (∀ v ∈ l, v.hash = h) →
      l.foldl addToGroups [(h, g0)] = [(h, g0 ++ l)] := by
  induction l with
  | nil =>
      intro g0 _
      simp
  | cons v t ih =>
      intro g0 hall
      have hv : v.hash = h := hall v (List.mem_cons_self v t)
      rw [List.foldl_cons]
      have hadd : addToGroups [(h, g0)] v = [(h, g0 ++ [v])] := by
        simp only [addToGroups]
        rw [if_pos hv.symm]
      rw [hadd, ih (g0 ++ [v]) (fun w hw => hall w (List.mem_cons_of_mem _ hw))]
      simp

/-- A round whose judgments all share one fingerprint groups into exactly
one group holding the whole round. -/
theorem groupByHash_all_same (v : Verification) (t : List Verification)
    (hall : ∀ w ∈ v :: t, w.hash = v.hash) :
    groupByHash (v :: t) = [(v.hash, v :: t)] := by
  unfold groupByHash
  rw [List.foldl_cons]
  have h0 : addToGroups [] v = [(v.hash, [v])] := rfl
  rw [h0, foldl_addToGroups_same v.hash t [v]
    (fun w hw => hall w (List.mem_cons_of_mem _ hw))]
  simp

theorem mem_keys_addToGroups_self (gs : List (String × List Verification))
    (v : Verification) : v.hash ∈ (addToGroups gs v).map Prod.fst := by
  induction gs with
  | nil => simp [addToGroups]
  | cons p rest ih =>
      obtain ⟨h, g⟩ := p
      simp only [addToGroups]
      split
      · rename_i hh
        simp [← hh]
      · simp only [List.map_cons, List.mem_cons]
        right
        exact ih

theorem keys_mono_addToGroups (gs : List (String × List Verification))
    (v : Verification) (k : String) (hk : k ∈ gs.map Prod.fst) :
    k ∈ (addToGroups gs v).map Prod.fst := by
  induction gs with
  | nil => cases hk
  | cons p rest ih =>
      obtain ⟨h, g⟩ := p
      simp only [List.map_cons, List.mem_cons] at hk
      simp only [addToGroups]
      split
      · simp only [List.map_cons, List.mem_cons]
        exact hk
      · simp only [List.map_cons, List.mem_cons]
        rcases hk with rfl | hk2
        · left; rfl
        · right; exact ih hk2

theorem keys_mono_foldl (l : List Verification)
    (gs : List (String × List Verification)) (k : String)
    (hk : k ∈ gs.map Prod.fst) :
    k ∈ (l.foldl addToGroups gs).map Prod.fst := by
  induction l generalizing gs with
  | nil => exact hk
  | cons w t ih =>
      rw [List.foldl_cons]
      exact ih _ (keys_mono_addToGroups gs w k hk)

/-- Every judgment's fingerprint appears among the group keys. -/
theorem hash_mem_keys_foldl (l : List Verification)
    (gs : List (String × List Verification)) (v : Verification) (hv : v ∈ l) :
    v.hash ∈ (l.foldl addToGroups gs).map Prod.fst := by
  induction l generalizing gs with
  | nil => cases hv
  | cons w t ih =>
      rw [List.foldl_cons]
      rcases List.mem_cons.mp hv with rfl | hv2
      · exact keys_mono_foldl t _ _ (mem_keys_addToGroups_self gs v)
      · exact ih _ hv2

/-- There is exactly one group iff every judgment carries the head's
fingerprint. -/
theorem groupByHash_length_one_iff (v : Verification) (t : List Verification) :
    (groupByHash (v :: t)).length = 1 ↔ ∀ w ∈ v :: t, w.hash = v.hash := by
  constructor
  · intro h1
    obtain ⟨p, hp⟩ := List.length_eq_one.mp h1
    intro w hw
    have hwk := hash_mem_keys_foldl (v :: t) [] w hw
    have hvk := hash_mem_keys_foldl (v :: t) [] v (List.mem_cons_self v t)
    unfold groupByHash at hp
    rw [hp] at hwk hvk
    simp only [List.map_cons, List.map_nil, List.mem_cons,
      List.not_mem_nil, or_false] at hwk hvk
    rw [hwk, hvk]
  · intro hall
    rw [groupByHash_all_same v t hall]
    rfl

/-- C8: for a non-empty round, apply_voting's majority group has the
largest member count, ties going to the first-encountered fingerprint in
the insertion order of the grouping (the groups strictly before the chosen
one are strictly smaller, those after are no larger); consensus_strength
is majority_count over total count, and all_agree holds exactly when all
judgments share one fingerprint. -/
theorem c8_majority_and_tiebreak (vrs : List Verification) (hne : vrs ≠ []) :
    ∃ r, apply_voting vrs = some r ∧
      (∃ l1 g l2,
        groupByHash vrs = l1 ++ (r.majority_hash, g) :: l2 ∧
        r.majority_count = g.length ∧
        (∀ p ∈ l1, p.2.length < g.length) ∧
        (∀ p ∈ l2, p.2.length ≤ g.length)) ∧
      r.consensus_strength = (r.majority_count : ℚ) / (vrs.length : ℚ) ∧
      (r.all_agree = true ↔ ∀ v ∈ vrs, ∀ w ∈ vrs, v.hash = w.hash) := by
  cases vrs with
  | nil => exact absurd rfl hne
  | cons v t =>
      cases hgs : groupByHash (v :: t) with
      | nil => exact absurd hgs (groupByHash_ne_nil v t)
      | cons g0 rest =>
          unfold apply_voting
          rw [hgs]
          unfold maxByLen
          refine ⟨_, rfl, ?_, ?_, ?_⟩
          · obtain ⟨l1, l2, heq, hlt, hle⟩ := foldl_pickLonger_spec rest g0
            refine ⟨l1, (rest.foldl pickLonger g0).2, l2, ?_, rfl, hlt, hle⟩
            show g0 :: rest =
              l1 ++ ((rest.foldl pickLonger g0).1,
                     (rest.foldl pickLonger g0).2) :: l2
            rw [Prod.mk.eta]
            exact heq
          · rfl
          · show ((g0 :: rest).length == 1) = true ↔ _
            rw [beq_iff_eq, ← hgs]
            rw [groupByHash_length_one_iff v t]
            constructor
            · intro hall a ha b hb
              rw [hall a ha, hall b hb]
            · intro hpair w hw
              exact hpair w hw v (List.mem_cons_self v t)

def c8Vrs : List Verification :=
  [{ agent_id := "verifier-0", hash := "a", output := JValue.null,
     is_valid := true, confidence := 9 / 10 },
   { agent_id := "verifier-1", hash := "a", output := JValue.null,
     is_valid := true, confidence := 9 / 10 },
   { agent_id := "verifier-2", hash := "b", output := JValue.null,
     is_valid := true, confidence := 9 / 10 }]

theorem c8_majority_and_tiebreak_witness :
    c8Vrs ≠ [] ∧
    (∃ r, apply_voting c8Vrs = some r ∧
      (∃ l1 g l2,
        groupByHash c8Vrs = l1 ++ (r.majority_hash, g) :: l2 ∧
        r.majority_count = g.length ∧
        (∀ p ∈ l1, p.2.length < g.length) ∧
        (∀ p ∈ l2, p.2.length ≤ g.length)) ∧
      r.consensus_strength = (r.majority_count : ℚ) / (c8Vrs.length : ℚ) ∧
      (r.all_agree = true ↔ ∀ v ∈ c8Vrs, ∀ w ∈ c8Vrs, v.hash = w.hash)) :=
  ⟨List.cons_ne_nil _ _,
   c8_majority_and_tiebreak c8Vrs (List.cons_ne_nil _ _)⟩

/-- Strict key ordering (used to identify equal sorted key lists). -/
def keyLT (p q : String × JValue) : Prop := p.1 < q.1

instance : IsTotal (String × JValue) keyLE := ⟨fun p q => le_total p.1 q.1⟩

instance : IsTrans (String × JValue) keyLE := ⟨fun _ _ _ h1 h2 => le_trans h1 h2⟩

instance : IsAntisymm (String × JValue) keyLT :=
  ⟨fun _ _ h1 h2 => absurd h1 (lt_asymm h2)⟩

theorem canonEntries_eq_map (kvs : List (String × JValue)) :
    canonEntries kvs = kvs.map (fun kv => (kv.1, canon kv.2)) := by
  induction kvs with
  | nil => rfl
  | cons kv t ih =>
      obtain ⟨k, v⟩ := kv
      simp [canonEntries, ih]

theorem map_fst_canonEntries (kvs : List (String × JValue)) :
    (canonEntries kvs).map Prod.fst = kvs.map Prod.fst := by
  rw [canonEntries_eq_map, List.map_map]
  rfl

/-- A key-sorted entry list with pairwise-distinct keys is sorted for the
strict key order. -/
theorem sorted_keyLT_sortByKey (l : List (String × JValue))
    (hnd : ((sortByKey l).map Prod.fst).Nodup) :
    List.Sorted keyLT (sortByKey l) := by
  have hs : List.Sorted keyLE (sortByKey l) := List.sorted_insertionSort keyLE l
  have hne : (sortByKey l).Pairwise (fun p q => p.1 ≠ q.1) :=
    List.pairwise_map.mp hnd
  refine (List.Pairwise.and hs hne).imp ?_
  intro a b hab
  exact lt_of_le_of_ne hab.1 hab.2

/-- Sorting by key is order-insensitive: two permutations of the same
entries with pairwise-distinct keys sort to the same list (Python's
sorted on dict items). -/
theorem sortByKey_eq_of_perm (l l' : List (String × JValue)) (hp : l.Perm l')
    (hnd : (l.map Prod.fst).Nodup) : sortByKey l = sortByKey l' := by
  have hperm : (sortByKey l).Perm (sortByKey l') :=
    (List.perm_insertionSort keyLE l).trans
      (hp.trans (List.perm_insertionSort keyLE l').symm)
  have hnd1 : ((sortByKey l).map Prod.fst).Nodup :=
    (((List.perm_insertionSort keyLE l).map Prod.fst).nodup_iff).mpr hnd
  have hnd2 : ((sortByKey l').map Prod.fst).Nodup :=
    ((hperm.map Prod.fst).nodup_iff).mp hnd1
  exact List.eq_of_perm_of_sorted hperm (sorted_keyLT_sortByKey l hnd1)
    (sorted_keyLT_sortByKey l' hnd2)

/-- A fixed-width hex rendering only depends on the value mod 16^width. -/
theorem toHex_mod (w : Nat) : ∀ n : Nat, toHex w n = toHex w (n % 16 ^ w) := by
  induction w with
  | zero => intro n; rfl
  | succ w ih =>
      intro n
      show toHex w (n / 16) ++ String.singleton (hexDigit (n % 16)) =
        toHex w ((n % 16 ^ (w + 1)) / 16) ++
          String.singleton (hexDigit ((n % 16 ^ (w + 1)) % 16))
      have hdiv : (n % 16 ^ (w + 1)) / 16 = (n / 16) % 16 ^ w := by
        rw [pow_succ']
        exact Nat.mod_mul_right_div_self n 16 (16 ^ w)
      have hmod : (n % 16 ^ (w + 1)) % 16 = n % 16 := by
        exact Nat.mod_mod_of_dvd n (dvd_pow_self 16 (Nat.succ_ne_zero w))
      rw [hdiv, hmod, ih (n / 16)]

/-- canon leaves an already-sorted singleton object unchanged. -/
theorem canon_singleton_obj (k : String) (z : Int) :
    canon (JValue.obj [(k, JValue.num z)]) = JValue.obj [(k, JValue.num z)] := by
  simp [canon, canonEntries, sortByKey]

/-- C2 counterexample: the claim's "fingerprints differ for structurally
different results" cannot hold universally: sha256 has only 2^256
possible digests while there are infinitely many structurally distinct
dicts, so two distinct dicts must share a fingerprint (pigeonhole). -/
theorem c2_counterexample :
    ¬ (∀ a b : JValue, hash_result a = hash_result b ↔ structEq a b) := by
  intro H
  have h2pos : 0 < 2 ^ 256 := pow_pos (by norm_num) 256
  obtain ⟨m, n, hmn, heq⟩ :=
    Finite.exists_ne_map_eq_of_infinite
      (fun j : ℕ =>
        (⟨sha256Nat (strBytes (dumps
            (JValue.obj [("k", JValue.num (j : Int))]))) % 2 ^ 256,
          Nat.mod_lt _ h2pos⟩ : Fin (2 ^ 256)))
  have hval : sha256Nat (strBytes (dumps
        (JValue.obj [("k", JValue.num (m : Int))]))) % 2 ^ 256 =
      sha256Nat (strBytes (dumps
        (JValue.obj [("k", JValue.num (n : Int))]))) % 2 ^ 256 :=
    congrArg Fin.val heq
  have hhex : hash_result (JValue.obj [("k", JValue.num (m : Int))]) =
      hash_result (JValue.obj [("k", JValue.num (n : Int))]) := by
    unfold hash_result hexDigest
    conv_lhs => rw [toHex_mod]
    conv_rhs => rw [toHex_mod]
    have h16 : (16 : ℕ) ^ 64 = 2 ^ 256 := by norm_num
    rw [h16, hval]
  have hstruct := (H _ _).mp hhex
  unfold structEq at hstruct
  rw [canon_singleton_obj, canon_singleton_obj] at hstruct
  simp only [JValue.obj.injEq, List.cons.injEq, Prod.mk.injEq,
    JValue.num.injEq, and_true, true_and] at hstruct
  exact hmn (by exact_mod_cast hstruct)

/-- C2 (amended): structurally equal results (same keys and values, any
key insertion order, at every nesting level) always get the same sha256
fingerprint - in particular permuting a dict's entries never changes it;
the converse direction (structurally different results always get
different fingerprints) holds only up to sha256 collision resistance and
cannot hold universally (see the counterexample). -/
theorem c2_fingerprint_determinism :
    (∀ a b : JValue, structEq a b → hash_result a = hash_result b) ∧
    (∀ kvs kvs' : List (String × JValue), kvs.Perm kvs' →
      (kvs.map Prod.fst).Nodup →
      structEq (JValue.obj kvs) (JValue.obj kvs') ∧
      hash_result (JValue.obj kvs) = hash_result (JValue.obj kvs')) := by
  have hfwd : ∀ a b : JValue, structEq a b → hash_result a = hash_result b := by
    intro a b h
    unfold structEq at h
    unfold hash_result dumps
    rw [h]
  refine ⟨hfwd, ?_⟩
  intro kvs kvs' hp hnd
  have hse : structEq (JValue.obj kvs) (JValue.obj kvs') := by
    unfold structEq
    have h1 : canon (JValue.obj kvs) = JValue.obj (sortByKey (canonEntries kvs)) := by
      simp [canon]
    have h2 : canon (JValue.obj kvs') = JValue.obj (sortByKey (canonEntries kvs')) := by
      simp [canon]
    rw [h1, h2]
    congr 1
    apply sortByKey_eq_of_perm
    · rw [canonEntries_eq_map, canonEntries_eq_map]
      exact hp.map _
    · rw [map_fst_canonEntries]
      exact hnd
  exact ⟨hse, hfwd _ _ hse⟩

theorem c2_fingerprint_determinism_witness :
    ([("b", JValue.num 2), ("a", JValue.num 1)] : List (String × JValue)).Perm
        [("a", JValue.num 1), ("b", JValue.num 2)] ∧
    (([("b", JValue.num 2), ("a", JValue.num 1)] :
        List (String × JValue)).map Prod.fst).Nodup ∧
    (structEq (JValue.obj [("b", JValue.num 2), ("a", JValue.num 1)])
        (JValue.obj [("a", JValue.num 1), ("b", JValue.num 2)]) ∧
      hash_result (JValue.obj [("b", JValue.num 2), ("a", JValue.num 1)]) =
        hash_result (JValue.obj [("a", JValue.num 1), ("b", JValue.num 2)])) :=
  ⟨List.Perm.swap _ _ _, by decide,
   c2_fingerprint_determinism.2 _ _ (List.Perm.swap _ _ _) (by decide)⟩
